import Mathlib

/-!
Verification of the receipt-management backend's core pipeline:
the OCR field parser (`parseReceiptText`, `parseLineItems`) and the
keyword-scoring categorizer (`categorizeReceipt`).  Text is modelled as
`List Char`; JavaScript numbers are modelled as exact rationals (all
numeric literals in play are short decimal strings, where IEEE rounding
is monotone and equality-on-literals coincides).
-/

namespace Receipt

/-- ASCII lowercasing of a text, modelling JS `String.prototype.toLowerCase`
on the ASCII inputs in play (per-character). -/
def lowerL (s : List Char) : List Char := s.map Char.toLower

/-- JS regex `\s` / `String.prototype.trim` whitespace (ASCII subset). -/
def isSpaceB (c : Char) : Bool :=
  c == ' ' || c == '\t' || c == '\n' || c == '\r' || c == '\x0b' || c == '\x0c'

/-- JS `String.prototype.trim`: drop whitespace from both ends. -/
def trimL (s : List Char) : List Char :=
  ((s.dropWhile isSpaceB).reverse.dropWhile isSpaceB).reverse

/-- Tests whether `needle` is a prefix of `hay` (Boolean). -/
def isPrefixB : List Char → List Char → Bool
  | [], _ => true
  | _ :: _, [] => false
  | a :: as, b :: bs => a == b && isPrefixB as bs

/-- JS `hay.includes(needle)`: `needle` occurs as a contiguous substring. -/
def containsSub : List Char → List Char → Bool
  | hay, needle =>
    if isPrefixB needle hay then true
    else match hay with
      | [] => false
      | _ :: t => containsSub t needle

/-- Numeric value of a digit string (most significant first). -/
def natOfDigits (s : List Char) : ℕ :=
  s.foldl (fun n c => 10 * n + (c.toNat - 48)) 0

/-- JS `parseFloat` restricted to the capture shapes `\d*\.?\d*` produced by
the parser's regexes: `none` models `NaN` (empty or lone-dot captures). -/
def parseDec (s : List Char) : Option ℚ :=
  let ip := s.takeWhile Char.isDigit
  let r := s.drop ip.length
  match r with
  | [] => if ip = [] then none else some (natOfDigits ip : ℚ)
  | '.' :: fp' =>
      let fp := fp'.takeWhile Char.isDigit
      if fp'.drop fp.length ≠ [] then none
      else if ip = [] ∧ fp = [] then none
      else some ((natOfDigits ip : ℚ) + (natOfDigits fp : ℚ) / (10 ^ fp.length))
  | _ => none

/-! ## Categorization scorer (`categorizeReceipt`) -/

structure CatItem where
  name : String
  price : ℚ
deriving DecidableEq

structure CategorizationInput where
  merchantName : String
  items : Option (List CatItem)
  description : Option String
deriving DecidableEq

/-- The fixed category → keywords table, in declaration order. -/
def CATEGORY_KEYWORDS : List (String × List String) :=
  [("Food & Dining",
    ["restaurant", "cafe", "coffee", "pizza", "burger", "sushi", "food", "deli", "bakery",
     "bar", "pub", "grill", "bistro", "kitchen", "dining", "eatery", "takeout", "delivery",
     "mcdonalds", "starbucks", "subway", "kfc", "dominos", "pizza hut", "taco bell",
     "grocery", "supermarket", "walmart", "target", "kroger", "safeway", "whole foods"]),
   ("Transportation",
    ["gas", "fuel", "petrol", "shell", "bp", "exxon", "chevron", "uber", "lyft", "taxi",
     "bus", "train", "subway", "metro", "parking", "toll", "airline", "flight", "airport"]),
   ("Shopping",
    ["amazon", "ebay", "store", "shop", "retail", "mall", "department", "clothing",
     "fashion", "shoes", "electronics", "best buy", "apple store", "nike", "adidas"]),
   ("Entertainment",
    ["movie", "cinema", "theater", "concert", "tickets", "game", "sports", "netflix",
     "spotify", "music", "entertainment", "amusement", "park", "zoo", "museum"]),
   ("Healthcare",
    ["hospital", "clinic", "doctor", "medical", "pharmacy", "cvs", "walgreens", "prescription",
     "dental", "vision", "health", "medicine", "drug", "therapy", "treatment"]),
   ("Travel",
    ["hotel", "motel", "resort", "booking", "expedia", "airbnb", "rental car", "hertz",
     "avis", "enterprise", "travel", "vacation", "trip", "tourism"]),
   ("Utilities",
    ["electric", "electricity", "gas", "water", "internet", "phone", "cable", "utilities",
     "bill", "service", "att", "verizon", "comcast", "power", "energy"]),
   ("Education",
    ["school", "university", "college", "tuition", "books", "education", "learning",
     "course", "class", "training", "certification", "academic"]),
   ("Business",
    ["office", "supplies", "business", "professional", "consulting", "services",
     "meeting", "conference", "equipment", "software", "subscription"]),
   ("Personal Care",
    ["salon", "spa", "beauty", "barber", "hair", "nails", "cosmetics", "skincare",
     "personal care", "hygiene", "grooming", "wellness"]),
   ("Home & Garden",
    ["home depot", "lowes", "furniture", "garden", "hardware", "tools", "home improvement",
     "decoration", "appliances", "ikea", "bed bath beyond"]),
   ("Insurance",
    ["insurance", "policy", "premium", "coverage", "claim", "deductible", "allstate",
     "state farm", "geico", "progressive"]),
   ("Investments",
    ["investment", "stock", "bond", "mutual fund", "retirement", "401k", "ira",
     "brokerage", "trading", "dividend"]),
   ("Gifts & Donations",
    ["gift", "donation", "charity", "nonprofit", "giving", "present", "contribution",
     "fundraiser", "support"])]

/-- Join text fragments with a single space, as JS `Array.prototype.join(' ')`. -/
def joinSpace : List (List Char) → List Char
  | [] => []
  | [x] => x
  | x :: xs => x ++ ' ' :: joinSpace xs

/-- The fragments joined to build the search text:
`[input.merchantName, input.description || '', ...(input.items?.map(i => i.name) || [])]`. -/
def partsOf (input : CategorizationInput) : List (List Char) :=
  input.merchantName.toList
    :: (input.description.getD "").toList
    :: (input.items.getD []).map (fun i => i.name.toList)

/-- The lowercase haystack `text` the scorer searches. -/
def haystack (input : CategorizationInput) : List Char :=
  lowerL (joinSpace (partsOf input))

/-- Per-keyword contribution, exactly as the code computes it:
haystack hit gates the score, merchant hit upgrades 1 → 3. -/
def keywordPoints (input : CategorizationInput) (kw : String) : ℕ :=
  if containsSub (haystack input) (lowerL kw.toList) then
    (if containsSub (lowerL input.merchantName.toList) (lowerL kw.toList) then 3 else 1)
  else 0

/-- Per-keyword contribution as the spec words it: 3 when the keyword is a
substring of the lowercased merchant name, otherwise 1 when it is a substring
of the haystack, otherwise 0. -/
def keywordPointsSpec (input : CategorizationInput) (kw : String) : ℕ :=
  if containsSub (lowerL input.merchantName.toList) (lowerL kw.toList) then 3
  else if containsSub (haystack input) (lowerL kw.toList) then 1
  else 0

/-- A category's keyword score. -/
def categoryScore (input : CategorizationInput) (kws : List String) : ℕ :=
  (kws.map (keywordPoints input)).sum

/-- The `categoryScores` table in declaration order (`Object.entries` order). -/
def scoredEntries (input : CategorizationInput) : List (String × ℕ) :=
  CATEGORY_KEYWORDS.map (fun e => (e.1, categoryScore input e.2))

/-- One step of the `reduce` callback: `scores[a] > scores[b] ? a : b`. -/
def pickHigher (a b : String × ℕ) : String × ℕ :=
  if a.2 > b.2 then a else b

/-- Scoring pipeline of `categorizeReceipt`: score all categories, reduce to
the best entry, fall back to "Other" on a zero maximum. -/
def categorizeReceipt (input : CategorizationInput) : String :=
  match scoredEntries input with
  | [] => "Other"
  | e :: rest =>
      let best := rest.foldl pickHigher e
      if best.2 > 0 then best.1 else "Other"

/-! ## Regex machinery for the field parser

Each of the parser's four regexes is embedded as an explicit matcher with
JavaScript semantics: leftmost match position, alternatives in written order,
greedy pieces try longest first, lazy pieces shortest first. -/

/-- The list `[n, n-1, ..., 0]`: candidate lengths of a greedy `*` piece. -/
def descRange (n : ℕ) : List ℕ := (List.range (n + 1)).reverse

/-- The list `[n, n-1, ..., 1]`: candidate lengths of a greedy `+` piece. -/
def descRange1 (n : ℕ) : List ℕ := (List.range' 1 n).reverse

/-- Length matched by greedy `\d+\.?\d*` at the head of `l` (0 when no digit). -/
def numTokenLen (l : List Char) : ℕ :=
  let a := (l.takeWhile Char.isDigit).length
  if a = 0 then 0
  else match l.drop a with
    | '.' :: r => a + 1 + (r.takeWhile Char.isDigit).length
    | _ => a

/-- Character class `[:\s]` of the total-label regex. -/
def isColonSpace (c : Char) : Bool := c == ':' || isSpaceB c

/-- Match `(?:total|amount|sum)[:\s]*\$?(\d+\.?\d*)` (case-insensitive) anchored
at the head of `s`; returns the capture.  No backtracking is needed: the
alternatives start with distinct letters and no shorter `[:\s]*` run can ever
satisfy the `\$?\d+` continuation that the greedy run failed. -/
def matchLabelAt (s : List Char) : Option (List Char) :=
  match (["total", "amount", "sum"].map String.toList).find?
      (fun lb => isPrefixB lb (lowerL s)) with
  | none => none
  | some lb =>
      let r := s.drop lb.length
      let r2 := r.drop (r.takeWhile isColonSpace).length
      let r3 := match r2 with
        | '$' :: t => t
        | _ => r2
      let n := numTokenLen r3
      if n = 0 then none else some (r3.take n)

/-- First match of the total-label regex anywhere in the text (leftmost). -/
def findLabelCapture : List Char → Option (List Char)
  | [] => none
  | c :: t =>
    match matchLabelAt (c :: t) with
    | some cap => some cap
    | none => findLabelCapture t

/-- All captures of the global regex `\$(\d+\.?\d*)`, scanning left to right
and resuming after each match, as `RegExp.prototype.exec` in a loop does.
Fuel-based recursion (the fuel bounds the characters still to scan; each
step consumes at least one, so `s.length` fuel is always enough). -/
def dollarAmountsAux : ℕ → List Char → List (List Char)
  | 0, _ => []
  | _, [] => []
  | fuel + 1, c :: rest =>
    let n := numTokenLen rest
    if c = '$' ∧ n ≠ 0 then rest.take n :: dollarAmountsAux fuel (rest.drop n)
    else dollarAmountsAux fuel rest

def dollarAmounts (s : List Char) : List (List Char) :=
  dollarAmountsAux s.length s

/-- Separator class `[\/\-\.]` of the date regex. -/
def isSep (c : Char) : Bool := c == '/' || c == '-' || c == '.'

/-- Tests that `s.take k` consists of exactly `k` digits. -/
def digitsExactly (k : ℕ) (s : List Char) : Bool :=
  (s.take k).length = k && (s.take k).all Char.isDigit

/-- Match `\d{1,2}[\/\-\.]\d{1,2}[\/\-\.]\d{2,4}` anchored at the head of `s`,
returning the matched substring; bounded quantifiers greedy (longer first). -/
def matchDateAt (s : List Char) : Option (List Char) :=
  ([2, 1] : List ℕ).findSome? fun d1 =>
    if digitsExactly d1 s then
      match s.drop d1 with
      | c1 :: s1 =>
        if isSep c1 then
          ([2, 1] : List ℕ).findSome? fun d2 =>
            if digitsExactly d2 s1 then
              match s1.drop d2 with
              | c2 :: s2 =>
                if isSep c2 then
                  ([4, 3, 2] : List ℕ).findSome? fun d3 =>
                    if digitsExactly d3 s2 then
                      some (s.take (d1 + 1 + d2 + 1 + d3))
                    else none
                else none
              | [] => none
            else none
        else none
      | [] => none
    else none

/-- First (leftmost) match of the date regex anywhere in the text. -/
def findFirstDate : List Char → Option (List Char)
  | [] => none
  | c :: t =>
    match matchDateAt (c :: t) with
    | some m => some m
    | none => findFirstDate t

/-- Match the group `(\d*\.?\d*)` at the head of `s` with full backtracking
priority (outer `\d*` greedy, then `\.?` consuming first, then inner `\d*`
greedy), handing each candidate capture and remainder to the continuation. -/
def matchNumStar {α : Type} (s : List Char) (k : List Char → List Char → Option α) :
    Option α :=
  (descRange ((s.takeWhile Char.isDigit).length)).findSome? fun a =>
    let r := s.drop a
    let withDot : Option α :=
      match r with
      | '.' :: r2 =>
          (descRange ((r2.takeWhile Char.isDigit).length)).findSome? fun b =>
            k (s.take (a + 1 + b)) (r2.drop b)
      | _ => none
    match withDot with
    | some v => some v
    | none =>
        (descRange ((r.takeWhile Char.isDigit).length)).findSome? fun b =>
          k (s.take (a + b)) (r.drop b)

/-- Match the group `(\d+\.?\d*)` at the head of `s` with backtracking
priority, as `matchNumStar` but requiring at least one leading digit. -/
def matchNumPlus {α : Type} (s : List Char) (k : List Char → List Char → Option α) :
    Option α :=
  (descRange1 ((s.takeWhile Char.isDigit).length)).findSome? fun a =>
    let r := s.drop a
    let withDot : Option α :=
      match r with
      | '.' :: r2 =>
          (descRange ((r2.takeWhile Char.isDigit).length)).findSome? fun b =>
            k (s.take (a + 1 + b)) (r2.drop b)
      | _ => none
    match withDot with
    | some v => some v
    | none =>
        (descRange ((r.takeWhile Char.isDigit).length)).findSome? fun b =>
          k (s.take (a + b)) (r.drop b)

/-- Match the full-line item regex `^(.+?)\s+(\d*\.?\d*)\s*\$?(\d+\.?\d*)$`
with JavaScript backtracking order, returning the three captures
(name, quantity string, price string). -/
def matchItem (s : List Char) : Option (List Char × List Char × List Char) :=
  (List.range' 1 s.length).findSome? fun nl =>
    let name := s.take nl
    let r1 := s.drop nl
    (descRange1 ((r1.takeWhile isSpaceB).length)).findSome? fun w1 =>
      matchNumStar (r1.drop w1) fun qty r2 =>
        (descRange ((r2.takeWhile isSpaceB).length)).findSome? fun w2 =>
          let r3 := r2.drop w2
          let withDollar : Option (List Char × List Char × List Char) :=
            match r3 with
            | '$' :: r4 =>
                matchNumPlus r4 fun price r5 =>
                  if r5 = [] then some (name, qty, price) else none
            | _ => none
          match withDollar with
          | some v => some v
          | none =>
              matchNumPlus r3 fun price r5 =>
                if r5 = [] then some (name, qty, price) else none

/-! ## The OCR field parser (`ocrService.ts`) -/

/-- Line normalization `text.split(newline).map(trim).filter(nonempty)`. -/
def normalizedLines (text : List Char) : List (List Char) :=
  ((text.splitOn '\n').map trimL).filter (fun l => l ≠ [])

/-- The merchant-line test: no digit, no case-insensitive "receipt" or "tax",
length strictly greater than 3. -/
def isMerchantLine (l : List Char) : Bool :=
  !(l.any Char.isDigit)
    && !(containsSub (lowerL l) "receipt".toList)
    && !(containsSub (lowerL l) "tax".toList)
    && decide (l.length > 3)

/-- The merchant-name loop: scan at most `n` leading lines (`n = 3` at the
call site), returning the first qualifying line. -/
def findMerchant : ℕ → List (List Char) → Option (List Char)
  | _, [] => none
  | 0, _ :: _ => none
  | n + 1, l :: ls => if isMerchantLine l then some l else findMerchant n ls

/-- Total-amount extraction: first label-regex match wins; otherwise the
maximum over all `$<decimal>` captures; otherwise absent. -/
def extractTotal (text : List Char) : Option ℚ :=
  match findLabelCapture text with
  | some cap => some ((parseDec cap).getD 0)
  | none =>
    match (dollarAmounts text).map (fun c => (parseDec c).getD 0) with
    | [] => none
    | a :: r => some (r.foldl max a)

structure LineItem where
  name : List Char
  quantity : ℚ
  price : ℚ
deriving DecidableEq

/-- The per-line body of `parseLineItems`: regex match, trimmed non-empty
name and non-empty price string required, quantity defaulting to 1 when
absent or NaN, the item kept only for a strictly positive price. -/
def itemOfLine (l : List Char) : Option LineItem :=
  match matchItem l with
  | none => none
  | some (nm, q, p) =>
      if trimL nm ≠ [] ∧ p ≠ [] then
        match parseDec p with
        | none => none
        | some pr =>
            if 0 < pr then some ⟨trimL nm, (parseDec q).getD 1, pr⟩ else none
      else none

/-- The `parseLineItems` loop: apply the per-line extractor to every
normalized line, keeping matches in source order. -/
def parseLineItems (lines : List (List Char)) : List LineItem :=
  lines.filterMap itemOfLine

structure SimpleDate where
  year : ℕ
  month : ℕ
  day : ℕ
deriving DecidableEq

/-- Chronological sort key of a calendar date. -/
def SimpleDate.key (d : SimpleDate) : ℕ := d.year * 10000 + d.month * 100 + d.day

def daysInMonth (y m : ℕ) : ℕ :=
  if m = 2 then (if (y % 4 = 0 ∧ y % 100 ≠ 0) ∨ y % 400 = 0 then 29 else 28)
  else if m = 4 ∨ m = 6 ∨ m = 9 ∨ m = 11 then 30 else 31

/-- Two-digit years map into 1950–2049, as the ambient parser does. -/
def fixYear (y len : ℕ) : ℕ :=
  if len ≤ 2 then (if y < 50 then 2000 + y else 1900 + y) else y

/-- Modelled from the spec: the "ambient locale's date parsing" applied by the
field parser (`new Date(string)` of the runtime, which is not part of src/).
Accepts `M sep D sep Y` with 1–2 digit month and day and 2–4 digit year, and
succeeds exactly when the calendar date exists (month 1–12, day within the
month's length, leap years included); otherwise the parse is invalid. -/
def jsParseDate (s : List Char) : Option SimpleDate :=
  let mdig := s.takeWhile Char.isDigit
  match s.drop mdig.length with
  | c1 :: r1 =>
    if isSep c1 then
      let ddig := r1.takeWhile Char.isDigit
      match r1.drop ddig.length with
      | c2 :: r2 =>
        if isSep c2 then
          let ydig := r2.takeWhile Char.isDigit
          if mdig ≠ [] ∧ ddig ≠ [] ∧ ydig ≠ [] ∧ r2.drop ydig.length = [] then
            let m := natOfDigits mdig
            let d := natOfDigits ddig
            let y := fixYear (natOfDigits ydig) ydig.length
            if 1 ≤ m ∧ m ≤ 12 ∧ 1 ≤ d ∧ d ≤ daysInMonth y m then
              some ⟨y, m, d⟩
            else none
          else none
        else none
      | [] => none
    else none
  | [] => none

/-- The parser's structured output; each `Option` field mirrors an optional
field of `OCRResult` that the code may leave unset. -/
structure ParsedReceipt where
  merchantName : Option (List Char)
  totalAmount : Option ℚ
  date : Option SimpleDate
  items : Option (List LineItem)
deriving DecidableEq

/-- The field parser `parseReceiptText`, parameterized by the ambient date
parser: merchant
from the first 3 normalized lines, total via label regex then max-amount
fallback, date from the first date-regex match only, items from the per-line
extractor — the `items` field set only when at least one item was found. -/
def parseReceiptText (dateParse : List Char → Option SimpleDate)
    (text : List Char) : ParsedReceipt :=
  let lines := normalizedLines text
  { merchantName := findMerchant 3 lines
    totalAmount := extractTotal text
    date := (findFirstDate text).bind dateParse
    items :=
      let its := parseLineItems lines
      if its = [] then none else some its }

/-! ## The OCR pipeline (`processReceiptOCR`) -/

structure RawOCR where
  text : List Char
  confidence : ℚ
deriving DecidableEq

/-- Observable outcome of one pipeline run: the returned payload (`none`
models the rethrown `Failed to process receipt with OCR` error) and whether
`fs.unlinkSync` was invoked on the temporary preprocessed artifact. -/
structure OCRRun where
  result : Option (ParsedReceipt × List Char × ℚ)
  tempArtifactDeleted : Bool
deriving DecidableEq

/-- The pipeline `processReceiptOCR` as a function of its two effectful
collaborators:
`preprocessed = some p` models `preprocessImage` succeeding with output path
`p`, `none` its caught failure (falling back to the source path); `ocr = none`
models `Tesseract.recognize` throwing.  The cleanup `unlinkSync` is executed
only on the successful path, after parsing, when the paths differ. -/
def processReceiptOCR (imagePath : List Char) (preprocessed : Option (List Char))
    (ocr : Option RawOCR) : OCRRun :=
  let preprocessedPath := preprocessed.getD imagePath
  match ocr with
  | none => ⟨none, false⟩
  | some d =>
      ⟨some (parseReceiptText jsParseDate d.text, d.text, d.confidence / 100),
       decide (preprocessedPath ≠ imagePath)⟩

/-! ## Helper lemmas -/

theorem pickHigher_choice (a b : String × ℕ) : pickHigher a b = a ∨ pickHigher a b = b := by
  unfold pickHigher
  split <;> simp

theorem pickHigher_eq_right (a b : String × ℕ) (h : a.2 ≤ b.2) : pickHigher a b = b := by
  unfold pickHigher
  exact if_neg (by omega)

theorem foldl_pickHigher_mem (l : List (String × ℕ)) (a : String × ℕ) :
    l.foldl pickHigher a ∈ a :: l := by
  induction l generalizing a with
  | nil => simp
  | cons b t ih =>
      simp only [List.foldl_cons]
      have h := ih (pickHigher a b)
      rcases List.mem_cons.mp h with h1 | h1
      · rcases pickHigher_choice a b with hc | hc
        · exact List.mem_cons.mpr (Or.inl (h1.trans hc))
        · exact List.mem_cons.mpr (Or.inr (List.mem_cons.mpr (Or.inl (h1.trans hc))))
      · exact List.mem_cons.mpr (Or.inr (List.mem_cons.mpr (Or.inr h1)))

theorem pickHigher_le_left (a b : String × ℕ) : a.2 ≤ (pickHigher a b).2 := by
  unfold pickHigher
  split <;> omega

theorem pickHigher_le_right (a b : String × ℕ) : b.2 ≤ (pickHigher a b).2 := by
  unfold pickHigher
  split <;> omega

theorem foldl_pickHigher_le (l : List (String × ℕ)) (a : String × ℕ) :
    ∀ x ∈ a :: l, x.2 ≤ (l.foldl pickHigher a).2 := by
  induction l generalizing a with
  | nil => simp
  | cons b t ih =>
      intro x hx
      simp only [List.foldl_cons]
      have hacc := ih (pickHigher a b) _ (List.mem_cons_self _ _)
      rcases List.mem_cons.mp hx with h1 | h1
      · subst h1
        exact le_trans (pickHigher_le_left x b) hacc
      · rcases List.mem_cons.mp h1 with h2 | h2
        · subst h2
          exact le_trans (pickHigher_le_right a x) hacc
        · exact ih (pickHigher a b) x (List.mem_cons.mpr (Or.inr h2))

theorem foldl_pickHigher_of_lt (l : List (String × ℕ)) (a : String × ℕ)
    (h : ∀ b ∈ l, b.2 < a.2) : l.foldl pickHigher a = a := by
  induction l with
  | nil => rfl
  | cons b t ih =>
      have hb : pickHigher a b = a := by
        unfold pickHigher
        exact if_pos (h b (List.mem_cons_self _ _))
      simp only [List.foldl_cons, hb]
      exact ih (fun c hc => h c (List.mem_cons.mpr (Or.inr hc)))

theorem foldl_pickHigher_last_max (l₁ l₂ : List (String × ℕ)) (m a : String × ℕ)
    (h₁ : ∀ x ∈ a :: l₁, x.2 ≤ m.2) (h₂ : ∀ y ∈ l₂, y.2 < m.2) :
    (l₁ ++ m :: l₂).foldl pickHigher a = m := by
  rw [List.foldl_append]
  have hacc : (l₁.foldl pickHigher a).2 ≤ m.2 :=
    h₁ _ (foldl_pickHigher_mem l₁ a)
  have hm : pickHigher (l₁.foldl pickHigher a) m = m :=
    pickHigher_eq_right _ _ hacc
  simp only [List.foldl_cons, hm]
  exact foldl_pickHigher_of_lt l₂ m h₂

theorem isPrefixB_append (n h t : List Char) (hp : isPrefixB n h = true) :
    isPrefixB n (h ++ t) = true := by
  induction n generalizing h with
  | nil => rfl
  | cons a as ih =>
      cases h with
      | nil => simp [isPrefixB] at hp
      | cons b bs =>
          simp only [isPrefixB, Bool.and_eq_true] at hp ⊢
          exact ⟨hp.1, ih bs hp.2⟩

theorem containsSub_append (h n t : List Char) (hc : containsSub h n = true) :
    containsSub (h ++ t) n = true := by
  induction h with
  | nil =>
      unfold containsSub at hc
      simp only [List.nil_append]
      by_cases hn : n = []
      · subst hn
        unfold containsSub
        cases t <;> simp [isPrefixB]
      · cases n with
        | nil => exact absurd rfl hn
        | cons x xs => simp [isPrefixB] at hc
  | cons c hs ih =>
      unfold containsSub at hc
      unfold containsSub
      by_cases hp : isPrefixB n (c :: hs) = true
      · rw [show (c :: hs) ++ t = (c :: hs) ++ t from rfl,
          isPrefixB_append n (c :: hs) t hp]
        simp
      · simp only [hp] at hc
        simp only [Bool.false_eq_true, if_false] at hc
        rw [List.cons_append]
        by_cases hp2 : isPrefixB n (c :: (hs ++ t)) = true
        · simp [hp2]
        · simp only [hp2, Bool.false_eq_true, if_false]
          exact ih hc

theorem foldl_max_mem (l : List ℚ) (a : ℚ) : l.foldl max a ∈ a :: l := by
  induction l generalizing a with
  | nil => simp
  | cons b t ih =>
      simp only [List.foldl_cons]
      have h := ih (max a b)
      rcases List.mem_cons.mp h with h1 | h1
      · rcases max_choice a b with hc | hc
        · exact List.mem_cons.mpr (Or.inl (h1.trans hc))
        · exact List.mem_cons.mpr (Or.inr (List.mem_cons.mpr (Or.inl (h1.trans hc))))
      · exact List.mem_cons.mpr (Or.inr (List.mem_cons.mpr (Or.inr h1)))

theorem foldl_max_le (l : List ℚ) (a : ℚ) : ∀ x ∈ a :: l, x ≤ l.foldl max a := by
  induction l generalizing a with
  | nil => simp
  | cons b t ih =>
      intro x hx
      simp only [List.foldl_cons]
      have hacc := ih (max a b) _ (List.mem_cons_self _ _)
      rcases List.mem_cons.mp hx with h1 | h1
      · subst h1
        exact le_trans (le_max_left _ _) hacc
      · rcases List.mem_cons.mp h1 with h2 | h2
        · subst h2
          exact le_trans (le_max_right _ _) hacc
        · exact ih (max a b) x (List.mem_cons.mpr (Or.inr h2))

theorem findMerchant_some (n : ℕ) (ls : List (List Char)) (m : List Char)
    (h : findMerchant n ls = some m) :
    isMerchantLine m = true ∧
      ∃ pre post, ls.take n = pre ++ m :: post ∧ ∀ x ∈ pre, isMerchantLine x = false := by
  induction ls generalizing n with
  | nil => cases n <;> simp [findMerchant] at h
  | cons l t ih =>
      cases n with
      | zero => simp [findMerchant] at h
      | succ k =>
          unfold findMerchant at h
          by_cases hl : isMerchantLine l = true
          · rw [if_pos hl] at h
            obtain rfl : l = m := Option.some.inj h
            exact ⟨hl, [], t.take k, by simp, by simp⟩
          · rw [if_neg hl] at h
            obtain ⟨hm, pre, post, htake, hpre⟩ := ih k h
            refine ⟨hm, l :: pre, post, ?_, ?_⟩
            · simp [htake]
            · intro x hx
              rcases List.mem_cons.mp hx with h1 | h1
              · subst h1
                exact Bool.not_eq_true _ ▸ (by simpa using hl)
              · exact hpre x h1

theorem findMerchant_none (n : ℕ) (ls : List (List Char))
    (h : findMerchant n ls = none) :
    ∀ x ∈ ls.take n, isMerchantLine x = false := by
  induction ls generalizing n with
  | nil => simp
  | cons l t ih =>
      cases n with
      | zero => simp
      | succ k =>
          unfold findMerchant at h
          by_cases hl : isMerchantLine l = true
          · rw [if_pos hl] at h
            exact absurd h (by simp)
          · rw [if_neg hl] at h
            intro x hx
            rcases List.mem_cons.mp (by simpa using hx) with h1 | h1
            · subst h1
              simpa using hl
            · exact ih k h x h1

theorem haystack_decomp (input : CategorizationInput) :
    haystack input =
      lowerL input.merchantName.toList ++
        lowerL (' ' :: joinSpace ((input.description.getD "").toList ::
          (input.items.getD []).map (fun i => i.name.toList))) := by
  unfold haystack partsOf lowerL
  rw [show joinSpace (input.merchantName.toList ::
        (input.description.getD "").toList ::
        (input.items.getD []).map (fun i => i.name.toList)) =
      input.merchantName.toList ++
        ' ' :: joinSpace ((input.description.getD "").toList ::
          (input.items.getD []).map (fun i => i.name.toList)) from rfl]
  rw [List.map_append]

theorem merchant_hit_haystack_hit (input : CategorizationInput) (kw : List Char)
    (h : containsSub (lowerL input.merchantName.toList) kw = true) :
    containsSub (haystack input) kw = true := by
  rw [haystack_decomp]
  exact containsSub_append _ _ _ h

theorem itemOfLine_eq (l nm q p : List Char) (pr : ℚ)
    (hmi : matchItem l = some (nm, q, p)) (hnm : trimL nm ≠ []) (hp : p ≠ [])
    (hpd : parseDec p = some pr) (hpos : 0 < pr) :
    itemOfLine l = some ⟨trimL nm, (parseDec q).getD 1, pr⟩ := by
  unfold itemOfLine
  rw [hmi]
  dsimp only
  rw [if_pos ⟨hnm, hp⟩, hpd]
  dsimp only
  rw [if_pos hpos]

theorem parseDec_350 : parseDec "3.50".toList = some ((7:ℚ)/2) := by
  have h0 : parseDec "3.50".toList = some (((3:ℕ):ℚ) + ((50:ℕ):ℚ)/10^(2:ℕ)) := rfl
  rw [h0]
  norm_num

theorem itemOfLine_bagel :
    itemOfLine "Bagel 2 $3.50".toList = some ⟨"Bagel".toList, 2, (7:ℚ)/2⟩ := by
  have h := itemOfLine_eq "Bagel 2 $3.50".toList "Bagel".toList "2".toList "3.50".toList
    ((7:ℚ)/2) (by decide) (by decide) (by decide) parseDec_350 (by norm_num)
  rw [h]
  have hq : (parseDec "2".toList).getD 1 = 2 := by
    have h0 : parseDec "2".toList = some ((2:ℕ):ℚ) := rfl
    rw [h0, Option.getD_some]
    norm_num
  have ht : trimL "Bagel".toList = "Bagel".toList := by decide
  rw [hq, ht]

theorem itemOfLine_fee : itemOfLine "Service Fee $-1.00".toList = none := by
  have hmi : matchItem "Service Fee $-1.00".toList = none := by decide
  unfold itemOfLine
  rw [hmi]

theorem parseLineItems_bagel :
    parseLineItems ["Bagel 2 $3.50".toList] = [⟨"Bagel".toList, 2, (7:ℚ)/2⟩] := by
  unfold parseLineItems
  simp only [List.filterMap_cons, List.filterMap_nil, itemOfLine_bagel]

theorem parseLineItems_fee : parseLineItems ["Service Fee $-1.00".toList] = [] := by
  unfold parseLineItems
  simp only [List.filterMap_cons, List.filterMap_nil, itemOfLine_fee]

theorem lineItem_price_pos (lines : List (List Char)) (it : LineItem)
    (hit : it ∈ parseLineItems lines) : 0 < it.price := by
  unfold parseLineItems at hit
  obtain ⟨l, hl, hol⟩ := List.mem_filterMap.mp hit
  unfold itemOfLine at hol
  cases hmi : matchItem l with
  | none => rw [hmi] at hol; cases hol
  | some t =>
      obtain ⟨nm, q, p⟩ := t
      rw [hmi] at hol
      dsimp only at hol
      by_cases hc : trimL nm ≠ [] ∧ p ≠ []
      · rw [if_pos hc] at hol
        cases hpd : parseDec p with
        | none => rw [hpd] at hol; exact absurd hol (by simp)
        | some pr =>
            rw [hpd] at hol
            dsimp only at hol
            by_cases hpos : 0 < pr
            · rw [if_pos hpos] at hol
              cases Option.some.inj hol
              exact hpos
            · rw [if_neg hpos] at hol; exact absurd hol (by simp)
      · rw [if_neg hc] at hol; exact absurd hol (by simp)

theorem lineItem_quantity_default (l nm q p : List Char) (it : LineItem)
    (hmi : matchItem l = some (nm, q, p)) (hq : parseDec q = none)
    (hol : itemOfLine l = some it) : it.quantity = 1 := by
  unfold itemOfLine at hol
  rw [hmi] at hol
  dsimp only at hol
  by_cases hc : trimL nm ≠ [] ∧ p ≠ []
  · rw [if_pos hc] at hol
    cases hpd : parseDec p with
    | none => rw [hpd] at hol; exact absurd hol (by simp)
    | some pr =>
        rw [hpd] at hol
        dsimp only at hol
        by_cases hpos : 0 < pr
        · rw [if_pos hpos] at hol
          cases Option.some.inj hol
          simp [hq]
        · rw [if_neg hpos] at hol; exact absurd hol (by simp)
  · rw [if_neg hc] at hol; exact absurd hol (by simp)

theorem itemOfLine_isSome_iff (l : List Char) :
    (itemOfLine l).isSome = true ↔
      ∃ nm q p pr, matchItem l = some (nm, q, p) ∧ trimL nm ≠ [] ∧ p ≠ [] ∧
        parseDec p = some pr ∧ 0 < pr := by
  unfold itemOfLine
  cases hmi : matchItem l with
  | none => simp
  | some t =>
      obtain ⟨nm, q, p⟩ := t
      dsimp only
      constructor
      · intro h
        by_cases hc : trimL nm ≠ [] ∧ p ≠ []
        · rw [if_pos hc] at h
          cases hpd : parseDec p with
          | none => rw [hpd] at h; simp at h
          | some pr =>
              rw [hpd] at h
              dsimp only at h
              by_cases hpos : 0 < pr
              · exact ⟨nm, q, p, pr, rfl, hc.1, hc.2, hpd, hpos⟩
              · rw [if_neg hpos] at h; simp at h
        · rw [if_neg hc] at h; simp at h
      · rintro ⟨nm', q', p', pr, hmi', hnm, hp, hpd, hpos⟩
        simp only [Option.some.injEq, Prod.mk.injEq] at hmi'
        obtain ⟨rfl, rfl, rfl⟩ := hmi'
        rw [if_pos ⟨hnm, hp⟩, hpd]
        dsimp only
        rw [if_pos hpos]
        rfl

theorem extractTotal_coffee :
    extractTotal "Coffee $3.00\nTea $7.50\nCake $12.00".toList = some 12 := by
  have h1 : findLabelCapture "Coffee $3.00\nTea $7.50\nCake $12.00".toList = none := by
    decide
  have h2 : dollarAmounts "Coffee $3.00\nTea $7.50\nCake $12.00".toList =
      ["3.00".toList, "7.50".toList, "12.00".toList] := by decide
  have e1 : (parseDec "3.00".toList).getD 0 = 3 := by
    have h0 : parseDec "3.00".toList = some (((3:ℕ):ℚ) + ((0:ℕ):ℚ)/10^(2:ℕ)) := rfl
    rw [h0, Option.getD_some]
    norm_num
  have e2 : (parseDec "7.50".toList).getD 0 = 15/2 := by
    have h0 : parseDec "7.50".toList = some (((7:ℕ):ℚ) + ((50:ℕ):ℚ)/10^(2:ℕ)) := rfl
    rw [h0, Option.getD_some]
    norm_num
  have e3 : (parseDec "12.00".toList).getD 0 = 12 := by
    have h0 : parseDec "12.00".toList = some (((12:ℕ):ℚ) + ((0:ℕ):ℚ)/10^(2:ℕ)) := rfl
    rw [h0, Option.getD_some]
    norm_num
  unfold extractTotal
  rw [h1, h2]
  simp only [List.map_cons, List.map_nil, e1, e2, e3, List.foldl_cons, List.foldl_nil]
  norm_num [max_def]

theorem parsedItems_field (dp : List Char → Option SimpleDate) (text : List Char) :
    ((parseReceiptText dp text).items = none ↔
      parseLineItems (normalizedLines text) = []) ∧
    (∀ l, (parseReceiptText dp text).items = some l →
      l = parseLineItems (normalizedLines text) ∧ l ≠ []) := by
  have hit : (parseReceiptText dp text).items =
      if parseLineItems (normalizedLines text) = [] then none
      else some (parseLineItems (normalizedLines text)) := rfl
  constructor
  · rw [hit]
    by_cases h : parseLineItems (normalizedLines text) = [] <;> simp [h]
  · intro l hl
    rw [hit] at hl
    by_cases h : parseLineItems (normalizedLines text) = []
    · rw [if_pos h] at hl
      exact absurd hl (by simp)
    · rw [if_neg h] at hl
      have heq := Option.some.inj hl
      exact ⟨heq.symm, heq ▸ h⟩

/-! ## Claim theorems -/

/-- C1, counterexample: with merchant name "Subway" alone, the categories
"Food & Dining" (declared first) and "Transportation" tie at the strictly
maximum score 3, yet the scorer returns "Transportation" — not the category
declared earliest in the keyword table among the tied maxima, refuting the
claimed first-declared tie-break. -/
theorem C1_counterexample :
    scoredEntries ⟨"Subway", none, none⟩ =
      [("Food & Dining", 3), ("Transportation", 3), ("Shopping", 0), ("Entertainment", 0),
       ("Healthcare", 0), ("Travel", 0), ("Utilities", 0), ("Education", 0), ("Business", 0),
       ("Personal Care", 0), ("Home & Garden", 0), ("Insurance", 0), ("Investments", 0),
       ("Gifts & Donations", 0)] ∧
    categorizeReceipt ⟨"Subway", none, none⟩ = "Transportation" := by
  constructor
  · decide
  · decide

/-- C1 (amended): ties are broken in favour of the category declared LATEST
in the keyword table among the tied maxima — if the score table splits as
`l₁ ++ m :: l₂` with every entry before `m` scoring at most `m`'s score and
every entry after `m` scoring strictly less, and `m` scores positively, the
scorer returns `m`'s category. -/
theorem C1_latest_tied_max_wins (input : CategorizationInput)
    (l₁ l₂ : List (String × ℕ)) (m : String × ℕ)
    (hsplit : scoredEntries input = l₁ ++ m :: l₂)
    (hle : ∀ x ∈ l₁, x.2 ≤ m.2) (hlt : ∀ y ∈ l₂, y.2 < m.2) (hpos : 0 < m.2) :
    categorizeReceipt input = m.1 := by
  unfold categorizeReceipt
  cases l₁ with
  | nil =>
      simp only [List.nil_append] at hsplit
      rw [hsplit]
      have hbest : l₂.foldl pickHigher m = m := foldl_pickHigher_of_lt l₂ m hlt
      simp [hbest, hpos]
  | cons a l₁' =>
      simp only [List.cons_append] at hsplit
      rw [hsplit]
      have hbest : (l₁' ++ m :: l₂).foldl pickHigher a = m :=
        foldl_pickHigher_last_max l₁' l₂ m a
          (fun x hx => by
            rcases List.mem_cons.mp hx with h1 | h1
            · exact h1 ▸ hle a (List.mem_cons_self _ _)
            · exact hle x (List.mem_cons.mpr (Or.inr h1)))
          hlt
      simp [hbest, hpos]

/-- C1, witness: the amended tie-break applied to the "Subway" input, whose
score table is `[("Food & Dining", 3)] ++ ("Transportation", 3) :: zeros`. -/
theorem C1_witness : categorizeReceipt ⟨"Subway", none, none⟩ = "Transportation" :=
  C1_latest_tied_max_wins ⟨"Subway", none, none⟩
    [("Food & Dining", 3)]
    [("Shopping", 0), ("Entertainment", 0), ("Healthcare", 0), ("Travel", 0),
     ("Utilities", 0), ("Education", 0), ("Business", 0), ("Personal Care", 0),
     ("Home & Garden", 0), ("Insurance", 0), ("Investments", 0), ("Gifts & Donations", 0)]
    ("Transportation", 3)
    (by decide) (by decide) (by decide) (by decide)

/-- C3: each keyword contributes 3 points when it occurs in the lowercased
merchant name (replacing, not adding to, the base point), otherwise 1 point
when it occurs in the lowercased haystack, otherwise 0; a category's score is
the sum of these contributions; and merchant "Starbucks Coffee" with empty
items and description resolves to "Food & Dining". -/
theorem C3_keyword_weighting :
    (∀ (input : CategorizationInput) (kw : String),
        keywordPoints input kw = keywordPointsSpec input kw) ∧
    (∀ (input : CategorizationInput) (kws : List String),
        categoryScore input kws = (kws.map (keywordPointsSpec input)).sum) ∧
    categorizeReceipt ⟨"Starbucks Coffee", some [], some ""⟩ = "Food & Dining" := by
  have hpoint : ∀ (input : CategorizationInput) (kw : String),
      keywordPoints input kw = keywordPointsSpec input kw := by
    intro input kw
    unfold keywordPoints keywordPointsSpec
    by_cases hm : containsSub (lowerL input.merchantName.toList) (lowerL kw.toList) = true
    · rw [if_pos hm, if_pos (merchant_hit_haystack_hit input _ hm), if_pos hm]
    · rw [if_neg hm, if_neg hm]
  refine ⟨hpoint, ?_, by decide⟩
  intro input kws
  unfold categoryScore
  exact congrArg List.sum (List.map_congr_left (fun kw _ => hpoint input kw))

/-- C4: when every category scores 0, the scorer returns the fallback
category "Other"; "Other" is not a key of the keyword table; and the concrete
zero-matching input "Random LLC" with a "Widget" item resolves to "Other". -/
theorem C4_zero_score_fallback :
    (∀ input : CategorizationInput,
        (∀ e ∈ scoredEntries input, e.2 = 0) → categorizeReceipt input = "Other") ∧
    "Other" ∉ CATEGORY_KEYWORDS.map Prod.fst ∧
    categorizeReceipt ⟨"Random LLC", some [⟨"Widget", 5⟩], some ""⟩ = "Other" := by
  refine ⟨?_, by decide, by decide⟩
  intro input h
  unfold categorizeReceipt
  cases hE : scoredEntries input with
  | nil => rfl
  | cons e rest =>
      have hmem : rest.foldl pickHigher e ∈ scoredEntries input :=
        hE ▸ foldl_pickHigher_mem rest e
      have hz : (rest.foldl pickHigher e).2 = 0 := h _ hmem
      simp [hz]

/-- C4, witness: the zero-score fallback applied to the "Random LLC" input,
every category of which scores 0. -/
theorem C4_witness : categorizeReceipt ⟨"Random LLC", some [⟨"Widget", 5⟩], some ""⟩ = "Other" :=
  C4_zero_score_fallback.1 ⟨"Random LLC", some [⟨"Widget", 5⟩], some ""⟩ (by decide)

/-- C5: the merchant name is the first of the first 3 normalized lines that
passes the merchant-line test (no digit, no case-insensitive "receipt"/"tax",
length > 3); when present it qualifies and every earlier candidate line fails
the test, and when absent no line among the first 3 qualifies. -/
theorem C5_merchant_first_qualifying (dp : List Char → Option SimpleDate)
    (text : List Char) :
    (∀ m, (parseReceiptText dp text).merchantName = some m →
        isMerchantLine m = true ∧
          ∃ pre post, (normalizedLines text).take 3 = pre ++ m :: post ∧
            ∀ x ∈ pre, isMerchantLine x = false) ∧
    ((parseReceiptText dp text).merchantName = none →
        ∀ x ∈ (normalizedLines text).take 3, isMerchantLine x = false) := by
  constructor
  · intro m hm
    exact findMerchant_some 3 (normalizedLines text) m hm
  · intro h
    exact findMerchant_none 3 (normalizedLines text) h

/-- C5, witness: on "STORE NAME\n123 Main St\nTotal: $5.00" the first line
qualifies and is selected with no earlier candidate. -/
theorem C5_witness :
    isMerchantLine "STORE NAME".toList = true ∧
      ∃ pre post,
        (normalizedLines "STORE NAME\n123 Main St\nTotal: $5.00".toList).take 3 =
          pre ++ "STORE NAME".toList :: post ∧
        ∀ x ∈ pre, isMerchantLine x = false :=
  (C5_merchant_first_qualifying jsParseDate
      "STORE NAME\n123 Main St\nTotal: $5.00".toList).1
    "STORE NAME".toList (by decide)

/-- C7: the date field is the ambient parse of the first date-regex match
only — for every ambient parser the field equals `bind` of the first match,
and on a text whose first match "02/30/2023" is an invalid calendar date the
field is absent even though a later valid date "01/15/2023" occurs. -/
theorem C7_date_first_match_only :
    (∀ (dp : List Char → Option SimpleDate) (text : List Char),
        (parseReceiptText dp text).date = (findFirstDate text).bind dp) ∧
    findFirstDate "Date: 02/30/2023 also 01/15/2023".toList =
      some "02/30/2023".toList ∧
    jsParseDate "02/30/2023".toList = none ∧
    jsParseDate "01/15/2023".toList = some ⟨2023, 1, 15⟩ ∧
    (parseReceiptText jsParseDate "Date: 02/30/2023 also 01/15/2023".toList).date =
      none :=
  ⟨fun _ _ => rfl, by decide, by decide, by decide, by decide⟩

/-- C8: the pipeline evaluated at the failing input — preprocessing succeeded
(the temporary artifact path differs from the source path) and the OCR step
throws.  The run propagates the error with `tempArtifactDeleted = false`: the
temporary artifact is NOT removed on the failure exit path, while on every
successful run with the same paths it is removed. -/
theorem C8_temp_leak_on_ocr_failure :
    processReceiptOCR "receipt.jpg".toList (some "processed_receipt.jpg".toList)
        none =
      ⟨none, false⟩ ∧
    "processed_receipt.jpg".toList ≠ "receipt.jpg".toList ∧
    (∀ d : RawOCR,
        (processReceiptOCR "receipt.jpg".toList
            (some "processed_receipt.jpg".toList) (some d)).tempArtifactDeleted =
          true) :=
  ⟨rfl, by decide, fun _ => rfl⟩

/-- C10, counterexample: the text "Receipt text 12/31/2099 here" makes the
field parser assert the date 2099-12-31, which is strictly later than the
current date 2026-10-12 — the parser level does assert future dates. -/
theorem C10_counterexample :
    (parseReceiptText jsParseDate "Receipt text 12/31/2099 here".toList).date =
      some ⟨2099, 12, 31⟩ ∧
    SimpleDate.key ⟨2026, 10, 12⟩ < SimpleDate.key ⟨2099, 12, 31⟩ := by
  constructor
  · decide
  · decide

/-- C10 (amended): the field parser applies no clamp against the current
time — its date field is a function of the text and the ambient date parser
alone, and it can be strictly later than "now", as the 2099 example shows. -/
theorem C10_no_future_clamp :
    (∀ (dp : List Char → Option SimpleDate) (text : List Char),
        (parseReceiptText dp text).date = (findFirstDate text).bind dp) ∧
    (parseReceiptText jsParseDate "Receipt text 12/31/2099 here".toList).date =
      some ⟨2099, 12, 31⟩ ∧
    SimpleDate.key ⟨2026, 10, 12⟩ < SimpleDate.key ⟨2099, 12, 31⟩ :=
  ⟨fun _ _ => rfl, by decide, by decide⟩

/-- C2: the extracted total is the number captured by the first match of the
case-insensitive label regex; when no label matches it is the maximum over all
`$<decimal>` captures (an extracted value belongs to the captures and bounds
them all); when neither strategy yields a number it is absent; and the
labelless text with $3.00, $7.50, $12.00 extracts 12. -/
theorem C2_total_extraction :
    (∀ text cap, findLabelCapture text = some cap →
        extractTotal text = some ((parseDec cap).getD 0)) ∧
    (∀ text, findLabelCapture text = none → dollarAmounts text = [] →
        extractTotal text = none) ∧
    (∀ text v, findLabelCapture text = none → extractTotal text = some v →
        v ∈ (dollarAmounts text).map (fun c => (parseDec c).getD 0) ∧
          ∀ q ∈ (dollarAmounts text).map (fun c => (parseDec c).getD 0), q ≤ v) ∧
    extractTotal "Coffee $3.00\nTea $7.50\nCake $12.00".toList = some 12 := by
  refine ⟨?_, ?_, ?_, extractTotal_coffee⟩
  · intro text cap h
    unfold extractTotal
    rw [h]
  · intro text h h2
    unfold extractTotal
    rw [h, h2]
    rfl
  · intro text v h hv
    unfold extractTotal at hv
    rw [h] at hv
    dsimp only at hv
    cases hml : (dollarAmounts text).map (fun c => (parseDec c).getD 0) with
    | nil => rw [hml] at hv; simp at hv
    | cons a r =>
        rw [hml] at hv
        dsimp only at hv
        obtain rfl := (Option.some.inj hv).symm
        exact ⟨foldl_max_mem r a, foldl_max_le r a⟩

/-- C2, witness: the label branch applied to "Total: $13.47" (first label
match wins), and the fallback-maximum branch applied to the labelless
three-amount text, where the extracted 12 belongs to the captures and bounds
them. -/
theorem C2_witness :
    extractTotal "Total: $13.47".toList = some ((parseDec "13.47".toList).getD 0) ∧
    ((12:ℚ) ∈ (dollarAmounts "Coffee $3.00\nTea $7.50\nCake $12.00".toList).map
        (fun c => (parseDec c).getD 0) ∧
      ∀ q ∈ (dollarAmounts "Coffee $3.00\nTea $7.50\nCake $12.00".toList).map
          (fun c => (parseDec c).getD 0), q ≤ 12) :=
  ⟨C2_total_extraction.1 "Total: $13.47".toList "13.47".toList (by decide),
   C2_total_extraction.2.2.1 "Coffee $3.00\nTea $7.50\nCake $12.00".toList 12
     (by decide) C2_total_extraction.2.2.2⟩

/-- C6: a line yields an item exactly when the item regex matches it with a
non-empty trimmed name, a non-empty price capture and a strictly positive
parsed price; every stored item has strictly positive price; the quantity
defaults to 1 when its capture is absent or unparsable; "Bagel 2 $3.50"
yields `{name: Bagel, quantity: 2, price: 3.5}` and "Service Fee $-1.00"
yields no item. -/
theorem C6_line_item_extraction :
    (∀ (lines : List (List Char)) (it : LineItem),
        it ∈ parseLineItems lines → 0 < it.price) ∧
    (∀ l, (itemOfLine l).isSome = true ↔
        ∃ nm q p pr, matchItem l = some (nm, q, p) ∧ trimL nm ≠ [] ∧ p ≠ [] ∧
          parseDec p = some pr ∧ 0 < pr) ∧
    (∀ (l nm q p : List Char) (it : LineItem),
        matchItem l = some (nm, q, p) → parseDec q = none →
        itemOfLine l = some it → it.quantity = 1) ∧
    parseLineItems ["Bagel 2 $3.50".toList] = [⟨"Bagel".toList, 2, (7:ℚ)/2⟩] ∧
    parseLineItems ["Service Fee $-1.00".toList] = [] :=
  ⟨lineItem_price_pos, itemOfLine_isSome_iff,
   fun l nm q p it hmi hq hol => lineItem_quantity_default l nm q p it hmi hq hol,
   parseLineItems_bagel, parseLineItems_fee⟩

/-- C6, witness: the positivity invariant applied to the item extracted from
"Bagel 2 $3.50", and the quantity default applied to "Candy $4", whose
quantity capture is empty. -/
theorem C6_witness :
    (0:ℚ) < (LineItem.mk "Bagel".toList 2 ((7:ℚ)/2)).price ∧
    (∀ it : LineItem, itemOfLine "Candy $4".toList = some it → it.quantity = 1) :=
  ⟨C6_line_item_extraction.1 ["Bagel 2 $3.50".toList] ⟨"Bagel".toList, 2, (7:ℚ)/2⟩
      (by rw [parseLineItems_bagel]; exact List.mem_singleton.mpr rfl),
   fun it hol =>
     C6_line_item_extraction.2.2.1 "Candy $4".toList "Candy".toList [] "4".toList it
       (by decide) (by decide) hol⟩

/-- C9, counterexample: on the raw text "just text" (which yields no line
items) the parser's result does NOT contain the items field at all — it is
absent rather than an empty sequence, refuting the claim that the items field
is always present. -/
theorem C9_counterexample :
    (parseReceiptText jsParseDate "just text".toList).items = none := by decide

/-- C9 (amended): the items field is present exactly when at least one line
item was extracted; when no items are found the field is absent (it is
optional exactly like merchantName, totalAmount and date), and when present
it is the non-empty ordered sequence of extracted items. -/
theorem C9_items_present_iff_nonempty (dp : List Char → Option SimpleDate)
    (text : List Char) :
    ((parseReceiptText dp text).items = none ↔
      parseLineItems (normalizedLines text) = []) ∧
    (∀ l, (parseReceiptText dp text).items = some l →
      l = parseLineItems (normalizedLines text) ∧ l ≠ []) :=
  parsedItems_field dp text

/-- C9, witness: on "Bagel 2 $3.50" the items field is present and equals the
non-empty singleton extracted sequence. -/
theorem C9_witness :
    [LineItem.mk "Bagel".toList 2 ((7:ℚ)/2)] =
      parseLineItems (normalizedLines "Bagel 2 $3.50".toList) ∧
    ([LineItem.mk "Bagel".toList 2 ((7:ℚ)/2)] : List LineItem) ≠ [] := by
  have hn : normalizedLines "Bagel 2 $3.50".toList = ["Bagel 2 $3.50".toList] := by
    decide
  have hpl : parseLineItems (normalizedLines "Bagel 2 $3.50".toList) =
      [LineItem.mk "Bagel".toList 2 ((7:ℚ)/2)] := by
    rw [hn, parseLineItems_bagel]
  have hit : (parseReceiptText jsParseDate "Bagel 2 $3.50".toList).items =
      if parseLineItems (normalizedLines "Bagel 2 $3.50".toList) = [] then none
      else some (parseLineItems (normalizedLines "Bagel 2 $3.50".toList)) := rfl
  have hl : (parseReceiptText jsParseDate "Bagel 2 $3.50".toList).items =
      some [LineItem.mk "Bagel".toList 2 ((7:ℚ)/2)] := by
    rw [hit, hpl]
    simp
  exact (C9_items_present_iff_nonempty jsParseDate "Bagel 2 $3.50".toList).2
    [LineItem.mk "Bagel".toList 2 ((7:ℚ)/2)] hl

end Receipt
